import Mathlib

/-!
# Verification of the stroke-animation system (threejs-wgsl)

Shallow embedding of the hand-drawn stroke animation pipeline:
the shared constants (`constants.ts`), the Stroke Bank
(`strokeTextureManager.ts`), the reveal wavefront `phaser`
(`example_drawing_compute.glsl` and the WGSL kernel draft of the
implementation plan), the per-unit reveal/interpolation kernel, and the
stroke normalizer (modelled from the spec where the source file is not in
the repository).  Numbers handled only by copying, comparison and field
arithmetic are modelled as exact rationals; JavaScript numbers whose
finiteness the code inspects are modelled by `JSNum`, a rational extended
with the three non-finite values.
-/

namespace StrokeAnim

/-! ## Shared constants (`src/drawing/constants.ts`, `DRAWING_CONSTANTS`) -/

namespace DRAWING_CONSTANTS

/-- Stroke resolution: every stored stroke has this many points. -/
def POINTS_PER_STROKE : ℕ := 1024

/-- Capacity of the Stroke Bank texture: number of rows. -/
def MAX_STROKES : ℕ := 64

/-- Capacity of the animation slot table. -/
def MAX_ANIMATIONS : ℕ := 64

/-- Compute workgroup size. -/
def WORKGROUP_SIZE : ℕ := 64

/-- Canvas width in pixels. -/
def CANVAS_WIDTH : ℚ := 1280

/-- Canvas height in pixels. -/
def CANVAS_HEIGHT : ℚ := 720

end DRAWING_CONSTANTS

open DRAWING_CONSTANTS

namespace DrawingScene

/-- `DrawingScene.maxAnimations` (drawingScene.ts line 19). -/
def maxAnimations : ℕ := DRAWING_CONSTANTS.MAX_ANIMATIONS

/-- `DrawingScene.pointsPerStroke` (drawingScene.ts line 20). -/
def pointsPerStroke : ℕ := DRAWING_CONSTANTS.POINTS_PER_STROKE

/-- `DrawingScene.maxInstances` (drawingScene.ts line 21). -/
def maxInstances : ℕ := maxAnimations * pointsPerStroke

end DrawingScene

/-! ## JavaScript numbers as the stroke code observes them -/

/-- A JavaScript number: a finite value (modelled exactly as a rational) or
one of the non-finite values `NaN`, `Infinity`, `-Infinity`. -/
inductive JSNum where
  | num (q : ℚ)
  | nan
  | posInf
  | negInf
deriving DecidableEq

/-- JavaScript `a < b` (IEEE semantics: every comparison with `NaN` is
false, `-Infinity` is below every finite value, `Infinity` above). -/
def jltB : JSNum → JSNum → Bool
  | .num a, .num b => decide (a < b)
  | .num _, .posInf => true
  | .negInf, .num _ => true
  | .negInf, .posInf => true
  | _, _ => false

/-- JavaScript `isFinite`. -/
def jsIsFinite : JSNum → Bool
  | .num _ => true
  | _ => false

/-- A stroke point `{x, y, t}` (`strokeTypes.ts` / the plan's
`StrokePoint`). -/
structure StrokePoint where
  x : JSNum
  y : JSNum
  t : JSNum
deriving DecidableEq

/-! ## Stroke Bank (`src/drawing/strokeTextureManager.ts`) -/

/-- The CPU-side `textureData` buffer: a flat array of components, index
`row * POINTS_PER_STROKE * 2 + 2 * column` holding `x` and the next cell
`y` of that column's point. -/
def TexState : Type := ℕ → JSNum

/-- `rowStartIndex` of `uploadStroke`: `strokeIndex * pointsPerStroke * 2`. -/
def rowStart (strokeIndex : ℕ) : ℕ := strokeIndex * POINTS_PER_STROKE * 2

/-- The copy loop of `uploadStroke`/`uploadStrokes`: write the points'
`(x, y)` components at consecutive pairs of cells from `start` on. -/
def writeRow : List StrokePoint → TexState → ℕ → TexState
  | [], data, _ => data
  | p :: rest, data, start =>
      writeRow rest
        (fun k => if k = start then p.x else if k = start + 1 then p.y else data k)
        (start + 2)

/-- The two errors `uploadStroke` throws. -/
inductive UploadError where
  | indexOutOfRange
  | pointCountMismatch
deriving DecidableEq

/-- `uploadStroke(strokeIndex, points)` (strokeTextureManager.ts lines
51-76): bounds check, point-count check, then the row copy.  A thrown
error leaves the buffer as it was, so the result pairs the buffer with the
error, the buffer unchanged on the error paths. -/
def uploadStroke (st : TexState) (strokeIndex : ℤ) (points : List StrokePoint) :
    TexState × Option UploadError :=
  if strokeIndex < 0 ∨ (MAX_STROKES : ℤ) ≤ strokeIndex then
    (st, some .indexOutOfRange)
  else if points.length ≠ POINTS_PER_STROKE then
    (st, some .pointCountMismatch)
  else
    (writeRow points st (rowStart strokeIndex.toNat), none)

/-- Modelled from the spec: `getStrokeData(index)` is called by
`drawingScene.drawDebugTexture` but its definition is not among the
repository's files; per the spec it "returns the row's points for
inspection/debugging (read-only view)": the row's `POINTS_PER_STROKE`
stored `(x, y)` pairs of the CPU-side texture data. -/
def getStrokeData (st : TexState) (strokeIndex : ℕ) : List (JSNum × JSNum) :=
  (List.range POINTS_PER_STROKE).map fun i =>
    (st (rowStart strokeIndex + 2 * i), st (rowStart strokeIndex + 2 * i + 1))

/-- One entry of a `uploadStrokes` batch. -/
structure StrokeEntry where
  index : ℤ
  points : List StrokePoint

/-- The warnings `uploadStrokes` records for skipped entries. -/
inductive UploadWarning where
  | indexOutOfRange (index : ℤ)
  | pointCountMismatch (index : ℤ) (got : ℕ)
deriving DecidableEq

/-- An entry `uploadStrokes` applies rather than skips: index in range and
exactly `POINTS_PER_STROKE` points. -/
def entryValid (e : StrokeEntry) : Bool :=
  decide (0 ≤ e.index ∧ e.index < (MAX_STROKES : ℤ) ∧
    e.points.length = POINTS_PER_STROKE)

/-- The loop of `uploadStrokes` (strokeTextureManager.ts lines 81-108):
skip-with-warning on a bad entry, copy a good one into the buffer and mark
`needsUpdate`. -/
def uploadStrokesLoop :
    List StrokeEntry → TexState → List UploadWarning → Bool →
      TexState × List UploadWarning × Bool
  | [], data, ws, upd => (data, ws, upd)
  | e :: rest, data, ws, upd =>
      if e.index < 0 ∨ (MAX_STROKES : ℤ) ≤ e.index then
        uploadStrokesLoop rest data (ws ++ [.indexOutOfRange e.index]) upd
      else if e.points.length ≠ POINTS_PER_STROKE then
        uploadStrokesLoop rest data
          (ws ++ [.pointCountMismatch e.index e.points.length]) upd
      else
        uploadStrokesLoop rest (writeRow e.points data (rowStart e.index.toNat))
          ws true

/-- `uploadStrokes(strokes)` (strokeTextureManager.ts lines 81-114): the
loop over the batch followed by at most one GPU `texture.update` call; the
third component counts the GPU transfers issued. -/
def uploadStrokes (st : TexState) (batch : List StrokeEntry) :
    TexState × List UploadWarning × ℕ :=
  let r := uploadStrokesLoop batch st [] false
  (r.1, r.2.1, if r.2.2 then 1 else 0)

/-! ## `validateStrokeData` (strokeTextureManager.ts lines 180-212) -/

/-- The errors `validateStrokeData` pushes. -/
inductive ValidationError where
  | pointCountMismatch
  | invalidCoordinates (i : ℕ)
  | invalidT (i : ℕ)
  | decreasingT (i : ℕ)
deriving DecidableEq

/-- Both coordinates of the point pass the `isFinite` check. -/
def coordsFinite (p : StrokePoint) : Bool := jsIsFinite p.x && jsIsFinite p.y

/-- The point's `t` passes the `t < 0 || t > 1` check (IEEE comparisons:
`NaN` passes). -/
def tAccepted (p : StrokePoint) : Bool :=
  !(jltB p.t (JSNum.num 0) || jltB (JSNum.num 1) p.t)

/-- The per-point loop of `validateStrokeData`: an invalid-coordinates
error and an invalid-`t` error per offending point, in order. -/
def pointChecks : ℕ → List StrokePoint → List ValidationError
  | _, [] => []
  | i, p :: rest =>
      ((if coordsFinite p then [] else [.invalidCoordinates i]) ++
          (if tAccepted p then [] else [.invalidT i])) ++
        pointChecks (i + 1) rest

/-- The `t`-progression loop of `validateStrokeData`: the first consecutive
pair with `points[i].t < points[i-1].t` produces one error and the loop
breaks. -/
def monoChecks : ℕ → List StrokePoint → List ValidationError
  | _, [] => []
  | _, [_] => []
  | i, p :: q :: rest =>
      if jltB q.t p.t then [.decreasingT (i + 1)] else monoChecks (i + 1) (q :: rest)

/-- `validateStrokeData(points)`: `valid` is `errors.length === 0`. -/
def validateStrokeData (points : List StrokePoint) :
    Bool × List ValidationError :=
  let errors :=
    (if points.length ≠ POINTS_PER_STROKE then [ValidationError.pointCountMismatch]
      else []) ++
      pointChecks 0 points ++ monoChecks 0 points
  (errors.isEmpty, errors)

/-- `t` is a finite number inside `[0, 1]` (the mathematical reading of
"lies in `[0,1]`"). -/
def tInUnit : JSNum → Bool
  | .num q => decide (0 ≤ q ∧ q ≤ 1)
  | _ => false

/-! ## The reveal wavefront and the kernel

The kernel state read each dispatch: the global parameter block, the
launch-config record buffer (one `LaunchConfig` per slot) and the stroke
texture, modelled as an abstract sampled function from texture coordinates
to an `(x, y)` pair. -/

/-- The `GlobalParams` uniform block (drawingScene.ts lines 183-196 and the
WGSL struct); `maxAnimations` is compared through `u32(...)`, modelled as a
natural number. -/
structure GlobalParams where
  time : ℚ
  canvasWidth : ℚ
  canvasHeight : ℚ
  maxAnimations : ℕ
  deltaTime : ℚ
deriving DecidableEq

/-- One record of the launch-config buffer: the 12-float GPU layout of the
implementation plan (`GPULaunchConfig` / the WGSL `LaunchConfig`). -/
structure LaunchConfig where
  strokeAIndex : ℚ
  strokeBIndex : ℚ
  interpolationT : ℚ
  totalDuration : ℚ
  elapsedTime : ℚ
  startPointX : ℚ
  startPointY : ℚ
  scale : ℚ
  active : ℚ
  phase : ℚ
  reserved1 : ℚ
  reserved2 : ℚ
deriving DecidableEq

/-- GLSL/WGSL `clamp(x, lo, hi) = min(max(x, lo), hi)`. -/
def clampQ (x lo hi : ℚ) : ℚ := min (max x lo) hi

/-- The wavefront function (example_drawing_compute.glsl lines 27-29 and
the WGSL draft): `phaser(pct, phase, e) = clamp((phase-1+pct*(1+e))/e, 0, 1)`. -/
def phaser (pct phase e : ℚ) : ℚ := clampQ ((phase - 1 + pct * (1 + e)) / e) 0 1

/-- WGSL `mix(x, y, a) = x + (y - x) * a`. -/
def mixQ (x y a : ℚ) : ℚ := x + (y - x) * a

/-- Componentwise `mix` on a 2-vector. -/
def mix2 (p q : ℚ × ℚ) (a : ℚ) : ℚ × ℚ := (mixQ p.1 q.1 a, mixQ p.2 q.2 a)

/-- The sampled stroke texture: texture coordinates `(u, v)` to an `(x, y)`
pair.  Sampling and filtering happen in the GPU; the kernel treats the
texture as this abstract function. -/
def StrokeTex : Type := ℚ → ℚ → ℚ × ℚ

/-- `sampleStroke(strokeIndex, phase)`: sample at
`vec2(phase, f32(strokeIndex) / 64.0)`. -/
def sampleStroke (tex : StrokeTex) (strokeIndex : ℕ) (phase : ℚ) : ℚ × ℚ :=
  tex phase ((strokeIndex : ℚ) / 64)

/-- `transformToCanvas(strokePoint, config)`. -/
def transformToCanvas (p : ℚ × ℚ) (config : LaunchConfig) : ℚ × ℚ :=
  (config.startPointX + p.1 * config.scale,
    config.startPointY + p.2 * config.scale)

/-- `canvasToNDC(canvasPos, canvasWidth, canvasHeight)`: aspect-corrected,
Y-flipped normalized device coordinates. -/
def canvasToNDC (p : ℚ × ℚ) (w h : ℚ) : ℚ × ℚ :=
  ((p.1 / w * 2 - 1) * (w / h), -(p.2 / h * 2 - 1))

/-- A row of the instance-matrix output buffer. -/
structure Vec4 where
  x : ℚ
  y : ℚ
  z : ℚ
  w : ℚ
deriving DecidableEq

/-- The translation row `setInactiveInstance` writes: far off-screen. -/
def cullVec : Vec4 := ⟨-10000, 0, 0, 1⟩

/-- What one kernel unit does to the instance-matrix buffer: nothing (an
out-of-bounds thread), a cull (only the translation row of its instance is
written, moved off-screen), or a full transform (uniform scale rows, a
homogeneous row and the device-space translation row). -/
inductive KernelWrite where
  | skip
  | cull (base : ℕ)
  | emit (base : ℕ) (scale : ℚ) (pos : ℚ × ℚ)
deriving DecidableEq

/-- The `(cell, value)` writes of a `KernelWrite` into `instanceMatrices`
(`buildTransformMatrix` and `setInactiveInstance`). -/
def writtenCells : KernelWrite → List (ℕ × Vec4)
  | .skip => []
  | .cull base => [(base + 3, cullVec)]
  | .emit base s p =>
      [(base, ⟨s, 0, 0, 0⟩), (base + 1, ⟨0, s, 0, 0⟩), (base + 2, ⟨0, 0, 1, 0⟩),
        (base + 3, ⟨p.1, p.2, 0, 1⟩)]

/-- The reveal value of a point: `clamp(phaser(config.phase, pointProgress,
1.0), 0.0, 0.9999)` with `pointProgress = pointIndex / POINTS_PER_STROKE`. -/
def revealOf (config : LaunchConfig) (pointIndex : ℕ) : ℚ :=
  clampQ (phaser config.phase ((pointIndex : ℚ) / (POINTS_PER_STROKE : ℚ)) 1)
    0 (9999 / 10000)

/-- One unit of the progressive-drawing kernel (the plan's optimized
`main`, vite.config.js lines 419-465, with the helper functions of the
first draft): decode `(slot, pointIndex)` from the global index, cull
inactive or not-yet-revealed points, otherwise sample, blend, transform
and emit one instance transform scaled by `0.003 * reveal`. -/
def strokeKernelUnit (params : GlobalParams) (configs : ℕ → LaunchConfig)
    (tex : StrokeTex) (globalIndex : ℕ) : KernelWrite :=
  let strokeIndex := globalIndex / POINTS_PER_STROKE
  let pointIndex := globalIndex % POINTS_PER_STROKE
  if params.maxAnimations ≤ strokeIndex then .skip
  else
    let config := configs strokeIndex
    if config.active < 1 / 2 then .cull (globalIndex * 4)
    else
      let phaseVal := revealOf config pointIndex
      if phaseVal ≤ 1 / 1000 then .cull (globalIndex * 4)
      else
        let pointProgress : ℚ := (pointIndex : ℚ) / (POINTS_PER_STROKE : ℚ)
        let strokePointA := sampleStroke tex config.strokeAIndex.floor.toNat pointProgress
        let strokePointB := sampleStroke tex config.strokeBIndex.floor.toNat pointProgress
        let interpolatedPoint := mix2 strokePointA strokePointB config.interpolationT
        let canvasPos := transformToCanvas interpolatedPoint config
        let ndc := canvasToNDC canvasPos params.canvasWidth params.canvasHeight
        .emit (globalIndex * 4) (3 / 1000 * phaseVal) ndc

/-- The visible/drawable region in normalized device coordinates: the
orthographic camera's frustum `[-aspect, aspect] × [-1, 1]`
(drawingScene.ts `setupCamera`). -/
def inVisibleRegion (p : ℚ × ℚ) : Prop :=
  -(CANVAS_WIDTH / CANVAS_HEIGHT) ≤ p.1 ∧ p.1 ≤ CANVAS_WIDTH / CANVAS_HEIGHT ∧
    -1 ≤ p.2 ∧ p.2 ≤ 1

instance (p : ℚ × ℚ) : Decidable (inVisibleRegion p) := by
  unfold inVisibleRegion; infer_instance

/-- What the first draft kernel (vite.config.js lines 321-367) writes back
to the launch-config record buffer for one slot: `none` when the slot is
inactive (the kernel returns before the write-back), otherwise the record
with `phase` recomputed from `elapsedTime / totalDuration`, `elapsedTime`
advanced by `deltaTime`, and `active` cleared when the recomputed phase
reached 1. -/
def draftKernelConfigWrite (params : GlobalParams) (config : LaunchConfig) :
    Option LaunchConfig :=
  if config.active < 1 / 2 then none
  else if 1 ≤ clampQ (config.elapsedTime / config.totalDuration) 0 1 then
    some { config with
            phase := clampQ (config.elapsedTime / config.totalDuration) 0 1
            elapsedTime := config.elapsedTime + params.deltaTime
            active := 0 }
  else
    some { config with
            phase := clampQ (config.elapsedTime / config.totalDuration) 0 1
            elapsedTime := config.elapsedTime + params.deltaTime }

/-! ## Stroke normalizer (modelled from the spec)

`strokeInterpolator.ts` is not among the repository's files (only its
caller, `drawingScene.setupStrokeData`, is); the definitions below are
modelled from spec §4.1.  Positions are exact rationals; the segment
length function (Euclidean distance in the code) is an abstract parameter
`len`, since the properties under proof do not depend on the metric. -/

/-- A raw input point of a stroke to be normalized. -/
structure RawPoint where
  x : ℚ
  y : ℚ
deriving DecidableEq

/-- An output point of the normalizer: position and parameter `t`. -/
structure NormPoint where
  x : ℚ
  y : ℚ
  t : ℚ
deriving DecidableEq

/-- Modelled from the spec: "collapse consecutive duplicate points". -/
def collapseDup : List RawPoint → List RawPoint
  | [] => []
  | [p] => [p]
  | p :: q :: rest =>
      if p = q then collapseDup (q :: rest) else p :: collapseDup (q :: rest)

/-- The lengths of the consecutive segments of a polyline, under the
abstract segment length `len`. -/
def segLens (len : RawPoint → RawPoint → ℚ) : List RawPoint → List ℚ
  | [] => []
  | [_] => []
  | p :: q :: rest => len p q :: segLens len (q :: rest)

/-- Cumulative arc lengths `L_i`, starting from `acc`. -/
def cumFrom (len : RawPoint → RawPoint → ℚ) : List RawPoint → ℚ → List ℚ
  | [], _ => []
  | [_], acc => [acc]
  | p :: q :: rest, acc => acc :: cumFrom len (q :: rest) (acc + len p q)

/-- Total arc length `L_total` of the cleaned polyline. -/
def totalLen (len : RawPoint → RawPoint → ℚ) (pts : List RawPoint) : ℚ :=
  (segLens len pts).sum

/-- One component of the Catmull-Rom spline through four control values. -/
def catmullRom1 (a b c d u : ℚ) : ℚ :=
  (2 * b + (c - a) * u + (2 * a - 5 * b + 4 * c - d) * u ^ 2 +
      (3 * b - a - 3 * c + d) * u ^ 3) / 2

/-- Index of the source segment bracketing target length `u`: the largest
`i` with `L_i ≤ u`. -/
def findSeg (cums : List ℚ) (u : ℚ) : ℕ :=
  (cums.takeWhile fun L => decide (L ≤ u)).length - 1

/-- Modelled from the spec: interpolate the position at target arc length
`u` with a Catmull-Rom fit through the four source points nearest the
bracketing segment, clamped at the polyline's ends. -/
def samplePos (len : RawPoint → RawPoint → ℚ) (cleaned : List RawPoint)
    (u : ℚ) : ℚ × ℚ :=
  let cums := cumFrom len cleaned 0
  let i := min (findSeg cums u) (cleaned.length - 2)
  let l0 := cums.getD i 0
  let l1 := cums.getD (i + 1) 0
  let v := if l1 - l0 = 0 then 0 else (u - l0) / (l1 - l0)
  let p1 := cleaned.getD i ⟨0, 0⟩
  let p0 := cleaned.getD (i - 1) p1
  let p2 := cleaned.getD (i + 1) p1
  let p3 := cleaned.getD (i + 2) p2
  (catmullRom1 p0.x p1.x p2.x p3.x v, catmullRom1 p0.y p1.y p2.y p3.y v)

/-- The error `normalizeStroke` fails with on degenerate input. -/
inductive StrokeError where
  | DegenerateStrokeError
deriving DecidableEq

/-- The epsilon below which the cleaned polyline counts as degenerate. -/
def EPSILON_DEGENERATE : ℚ := 1 / 1000000

/-- Output sample `j` of the normalizer: the position interpolated at
target arc length `j/(N-1) * L_total`, with `t = j/(N-1)`. -/
def normSample (len : RawPoint → RawPoint → ℚ) (cleaned : List RawPoint)
    (j : ℕ) : NormPoint :=
  ⟨(samplePos len cleaned
      ((j : ℚ) / ((POINTS_PER_STROKE : ℚ) - 1) * totalLen len cleaned)).1,
    (samplePos len cleaned
      ((j : ℚ) / ((POINTS_PER_STROKE : ℚ) - 1) * totalLen len cleaned)).2,
    (j : ℚ) / ((POINTS_PER_STROKE : ℚ) - 1)⟩

/-- Modelled from the spec: `normalizeStroke(stroke)` of the missing
`strokeInterpolator.ts` — collapse consecutive duplicates, fail with
`DegenerateStrokeError` on degenerate input, otherwise emit exactly
`POINTS_PER_STROKE` samples over the cleaned polyline. -/
def normalizeStroke (len : RawPoint → RawPoint → ℚ) (stroke : List RawPoint) :
    Except StrokeError (List NormPoint) :=
  if (collapseDup stroke).length < 2 then .error .DegenerateStrokeError
  else if totalLen len (collapseDup stroke) ≤ EPSILON_DEGENERATE then
    .error .DegenerateStrokeError
  else
    .ok ((List.range POINTS_PER_STROKE).map (normSample len (collapseDup stroke)))

/-! ### Concrete instances used by witnesses and counterexamples -/

/-- A concrete global parameter block: the canvas of the scene, capacity
64, a 60 fps delta. -/
def paramsW : GlobalParams := ⟨0, 1280, 720, 64, 1 / 60⟩

/-- A concrete active launch record: duration 2 s, 1 s elapsed. -/
def cfgNine : LaunchConfig := ⟨0, 1, 1 / 2, 2, 1, 100, 100, 1, 1, 0, 0, 0⟩

/-- The record the draft kernel writes back for `cfgNine`: phase
recomputed to `1/2`, elapsed time advanced by the delta. -/
def cfgNineOut : LaunchConfig :=
  ⟨0, 1, 1 / 2, 2, 61 / 60, 100, 100, 1, 1, 1 / 2, 0, 0⟩

/-- The all-zero texture buffer the bank starts with. -/
def stZero : TexState := fun _ => JSNum.num 0

/-- A concrete full-length points array. -/
def ptsW : List StrokePoint :=
  List.replicate POINTS_PER_STROKE ⟨JSNum.num 3, JSNum.num 5, JSNum.num 0⟩

/-- A concrete active launch record with phase 1 (animation complete). -/
def cfgEmit : LaunchConfig := ⟨0, 1, 1 / 2, 2, 2, 100, 100, 1, 1, 1, 0, 0⟩

/-- A constant record buffer: every slot holds `cfgEmit`. -/
def configsW : ℕ → LaunchConfig := fun _ => cfgEmit

/-- A concrete stroke texture: every sample is the origin. -/
def texW : StrokeTex := fun _ _ => (0, 0)

/-- A concrete segment length function: squared Euclidean distance. -/
def lenSq : RawPoint → RawPoint → ℚ := fun p q =>
  (q.x - p.x) * (q.x - p.x) + (q.y - p.y) * (q.y - p.y)

/-- A concrete two-point stroke. -/
def strokeW : List RawPoint := [⟨0, 0⟩, ⟨1, 0⟩]

/-- A full-length array whose every `t` is `NaN`. -/
def nanPts : List StrokePoint :=
  List.replicate POINTS_PER_STROKE ⟨JSNum.num 0, JSNum.num 0, JSNum.nan⟩

/-! ## Theorems -/

/-- C1 (counterexample): the claim puts the default slot capacity K at
1024, but the code's `DrawingScene.maxAnimations`
(`DRAWING_CONSTANTS.MAX_ANIMATIONS`) is not 1024. -/
theorem maxAnimations_ne_1024 : DrawingScene.maxAnimations ≠ 1024 := by decide

/-- C1 (amended): the slot capacity is 64 by default — the system animates
up to 64 simultaneous stroke instances, `64 * 1024` instanced markers in
total. -/
theorem maxAnimations_eq_64 :
    DrawingScene.maxAnimations = 64 ∧ DrawingScene.maxInstances = 64 * 1024 := by
  decide

/-- C4 (counterexample): with the second argument (the formula's `phase`
parameter) equal to 1, `phaser` is 0, not 1, at `pct = 0`, `e = 1` — so
`phaser(pct, 1, e) = 1` does not hold for all `pct, e`. -/
theorem phaser_at_phase_one_cex : phaser 0 1 1 = 0 ∧ phaser 0 1 1 ≠ 1 := by
  have h : phaser 0 1 1 = 0 := by
    unfold phaser clampQ
    norm_num
  exact ⟨h, by rw [h]; norm_num⟩

/-- C4 (amended): with the first argument — the record's animation phase at
the call site — equal to 1, `phaser 1 phase e = 1` for every `phase ≥ 0`
and edge softness `e > 0`: when an animation's phase reaches 1, every
point of the stroke is fully revealed. -/
theorem phaser_full_phase (phase e : ℚ) (hphase : 0 ≤ phase) (he : 0 < e) :
    phaser 1 phase e = 1 := by
  unfold phaser clampQ
  have hx : (1 : ℚ) ≤ (phase - 1 + 1 * (1 + e)) / e := by
    rw [le_div_iff₀ he]
    linarith
  rw [max_eq_left (le_trans zero_le_one hx)]
  exact min_eq_right hx

/-- C4 (witness): `phaser 1 (1/2) 1 = 1` at the concrete inputs
`phase = 1/2`, `e = 1`. -/
theorem phaser_full_phase_witness :
    (0 : ℚ) ≤ 1 / 2 ∧ (0 : ℚ) < 1 ∧ phaser 1 (1 / 2) 1 = 1 :=
  ⟨by norm_num, by norm_num, phaser_full_phase (1 / 2) 1 (by norm_num) (by norm_num)⟩

/-- `clampQ` is monotone in its clamped argument. -/
theorem clampQ_le_clampQ {x y lo hi : ℚ} (h : x ≤ y) :
    clampQ x lo hi ≤ clampQ y lo hi :=
  min_le_min (max_le_max h le_rfl) le_rfl

/-- C5: for fixed `pct` and fixed edge softness `e > 0` (the default is
`e = 1`), `phaser` is nondecreasing in its `phase` argument. -/
theorem phaser_mono_in_phase (pct e phase1 phase2 : ℚ) (he : 0 < e)
    (h12 : phase1 ≤ phase2) : phaser pct phase1 e ≤ phaser pct phase2 e := by
  unfold phaser
  exact clampQ_le_clampQ ((div_le_div_iff_of_pos_right he).mpr (by linarith))

/-- C5 (witness): monotonicity at the concrete inputs `pct = 1/2`,
`phase = 1/4 ≤ 3/4`, `e = 1`. -/
theorem phaser_mono_in_phase_witness :
    (0 : ℚ) < 1 ∧ (1 / 4 : ℚ) ≤ 3 / 4 ∧
      phaser (1 / 2) (1 / 4) 1 ≤ phaser (1 / 2) (3 / 4) 1 :=
  ⟨by norm_num, by norm_num,
    phaser_mono_in_phase (1 / 2) 1 (1 / 4) (3 / 4) (by norm_num) (by norm_num)⟩

/-- C9 (counterexample): the kernel does write the launch-config record
buffer — for the concrete active record `cfgNine` the draft kernel writes
back a record that differs from the one the Scheduler serialized, so the
buffer is not rewritten only by the Scheduler's per-tick serialization. -/
theorem draftKernel_writes_record_cex :
    draftKernelConfigWrite paramsW cfgNine = some cfgNineOut ∧
      cfgNineOut ≠ cfgNine := by
  have hcl : clampQ (cfgNine.elapsedTime / cfgNine.totalDuration) 0 1 = 1 / 2 := by
    unfold cfgNine clampQ
    norm_num
  constructor
  · unfold draftKernelConfigWrite
    rw [if_neg (by unfold cfgNine; norm_num), hcl, if_neg (by norm_num)]
    unfold paramsW cfgNine cfgNineOut
    norm_num
  · unfold cfgNine cfgNineOut
    norm_num [LaunchConfig.mk.injEq]

/-- C9 (amended): the record buffer is written by the Kernel as well as the
Scheduler: the draft kernel binds `launchConfigs` read-write and writes
every active slot's record back each dispatch — `elapsedTime` advanced by
`deltaTime`, `phase` recomputed as `clamp(elapsedTime/totalDuration, 0, 1)`,
`active` cleared exactly when that phase reached 1; only inactive slots
are left unwritten. -/
theorem draftKernelConfigWrite_spec (params : GlobalParams)
    (config : LaunchConfig) :
    (config.active < 1 / 2 → draftKernelConfigWrite params config = none) ∧
      (¬ config.active < 1 / 2 →
        ∃ updated, draftKernelConfigWrite params config = some updated ∧
          updated.elapsedTime = config.elapsedTime + params.deltaTime ∧
          updated.phase = clampQ (config.elapsedTime / config.totalDuration) 0 1 ∧
          (1 ≤ updated.phase → updated.active = 0) ∧
          (¬ 1 ≤ updated.phase → updated.active = config.active)) := by
  constructor
  · intro h
    unfold draftKernelConfigWrite
    rw [if_pos h]
  · intro h
    unfold draftKernelConfigWrite
    rw [if_neg h]
    by_cases hp : 1 ≤ clampQ (config.elapsedTime / config.totalDuration) 0 1
    · rw [if_pos hp]
      exact ⟨_, rfl, rfl, rfl, fun _ => rfl, fun hn => absurd hp hn⟩
    · rw [if_neg hp]
      exact ⟨_, rfl, rfl, rfl, fun h1 => absurd h1 hp, fun _ => rfl⟩

/-- Cells outside the written range `[start, start + 2 * length)` are
untouched by the row copy. -/
theorem writeRow_outside (pts : List StrokePoint) (data : TexState)
    (start k : ℕ) (h : k < start ∨ start + 2 * pts.length ≤ k) :
    writeRow pts data start k = data k := by
  induction pts generalizing data start with
  | nil => rfl
  | cons p rest ih =>
      have hside : k < start + 2 ∨ start + 2 + 2 * rest.length ≤ k := by
        simp only [List.length_cons] at h
        omega
      have h1 : k ≠ start := by
        simp only [List.length_cons] at h
        omega
      have h2 : k ≠ start + 1 := by
        simp only [List.length_cons] at h
        omega
      simp only [writeRow]
      rw [ih _ (start + 2) hside]
      simp [h1, h2]

/-- The row copy puts point `j`'s coordinates at cells `start + 2j` and
`start + 2j + 1`. -/
theorem writeRow_at (pts : List StrokePoint) (data : TexState) (start j : ℕ)
    (hj : j < pts.length) :
    writeRow pts data start (start + 2 * j) = (pts.get ⟨j, hj⟩).x ∧
      writeRow pts data start (start + 2 * j + 1) = (pts.get ⟨j, hj⟩).y := by
  induction pts generalizing data start j with
  | nil => simp at hj
  | cons p rest ih =>
      cases j with
      | zero =>
          simp only [writeRow]
          constructor
          · rw [writeRow_outside rest _ (start + 2) _ (by omega)]
            simp
          · rw [writeRow_outside rest _ (start + 2) _ (by omega)]
            simp
      | succ j =>
          have hj2 : j < rest.length := by
            simpa using hj
          simp only [writeRow, List.get_cons_succ]
          constructor
          · have h2 : start + 2 * (j + 1) = start + 2 + 2 * j := by ring
            rw [h2]
            exact (ih _ (start + 2) j hj2).1
          · have h3 : start + 2 * (j + 1) + 1 = start + 2 + 2 * j + 1 := by ring
            rw [h3]
            exact (ih _ (start + 2) j hj2).2

/-- Reading back row `i` right after writing it returns exactly the
written coordinate pairs. -/
theorem getStrokeData_writeRow_eq (pts : List StrokePoint) (st : TexState)
    (i : ℕ) (hlen : pts.length = POINTS_PER_STROKE) :
    getStrokeData (writeRow pts st (rowStart i)) i =
      pts.map fun p => (p.x, p.y) := by
  apply List.ext_get
  · simp [getStrokeData, hlen]
  · intro n h1 h2
    have hn : n < pts.length := by
      rw [hlen]
      simpa [getStrokeData] using h1
    have hw := writeRow_at pts st (rowStart i) n hn
    simp only [getStrokeData, List.get_eq_getElem, List.getElem_map,
      List.getElem_range]
    rw [hw.1, hw.2]
    rfl

/-- Writing row `i` leaves the read of any other row `j` unchanged. -/
theorem getStrokeData_writeRow_ne (pts : List StrokePoint) (st : TexState)
    (i j : ℕ) (hlen : pts.length = POINTS_PER_STROKE) (hne : j ≠ i) :
    getStrokeData (writeRow pts st (rowStart i)) j = getStrokeData st j := by
  unfold getStrokeData
  apply List.map_congr_left
  intro k hk
  have hk2 : k < POINTS_PER_STROKE := by simpa using hk
  have hd1 : rowStart j + 2 * k < rowStart i ∨
      rowStart i + 2 * pts.length ≤ rowStart j + 2 * k := by
    rw [hlen]
    unfold rowStart POINTS_PER_STROKE at *
    omega
  have hd2 : rowStart j + 2 * k + 1 < rowStart i ∨
      rowStart i + 2 * pts.length ≤ rowStart j + 2 * k + 1 := by
    rw [hlen]
    unfold rowStart POINTS_PER_STROKE at *
    omega
  rw [writeRow_outside pts st _ _ hd1, writeRow_outside pts st _ _ hd2]

/-- C2: `uploadStroke` fails with the index-out-of-range error exactly when
the index is outside `[0, MAX_STROKES)`; for an in-range index it fails
with the point-count-mismatch error exactly when the point count is not
`POINTS_PER_STROKE`; on failure every row (row `index` included) reads
unchanged; on success row `index` reads as the uploaded points' coordinate
pairs and every other row reads unchanged. -/
theorem uploadStroke_spec (st : TexState) (i : ℤ) (pts : List StrokePoint) :
    (((uploadStroke st i pts).2 = some UploadError.indexOutOfRange) ↔
        i < 0 ∨ (MAX_STROKES : ℤ) ≤ i) ∧
      (((uploadStroke st i pts).2 = some UploadError.pointCountMismatch) ↔
        (0 ≤ i ∧ i < (MAX_STROKES : ℤ)) ∧ pts.length ≠ POINTS_PER_STROKE) ∧
      ((uploadStroke st i pts).2 ≠ none →
        ∀ j : ℕ, getStrokeData (uploadStroke st i pts).1 j = getStrokeData st j) ∧
      ((uploadStroke st i pts).2 = none →
        getStrokeData (uploadStroke st i pts).1 i.toNat =
            (pts.map fun p => (p.x, p.y)) ∧
          ∀ j : ℕ, j ≠ i.toNat →
            getStrokeData (uploadStroke st i pts).1 j = getStrokeData st j) := by
  by_cases h1 : i < 0 ∨ (MAX_STROKES : ℤ) ≤ i
  · have hredux : uploadStroke st i pts = (st, some .indexOutOfRange) := by
      unfold uploadStroke
      rw [if_pos h1]
    rw [hredux]
    refine ⟨by simp [h1], ?_, fun _ j => rfl, fun hc => absurd hc (by simp)⟩
    constructor
    · intro hx
      exact absurd hx (by simp)
    · rintro ⟨⟨ha, hb⟩, _⟩
      rcases h1 with h | h
      · omega
      · omega
  · by_cases h2 : pts.length ≠ POINTS_PER_STROKE
    · have hredux : uploadStroke st i pts = (st, some .pointCountMismatch) := by
        unfold uploadStroke
        rw [if_neg h1, if_pos h2]
      rw [hredux]
      push_neg at h1
      refine ⟨?_, ?_, fun _ j => rfl, fun hc => absurd hc (by simp)⟩
      · constructor
        · intro hx
          exact absurd hx (by simp)
        · intro hx
          rcases hx with hx | hx
          · omega
          · omega
      · constructor
        · intro _
          exact ⟨⟨h1.1, h1.2⟩, h2⟩
        · intro _
          rfl
    · have hlen : pts.length = POINTS_PER_STROKE := not_not.mp h2
      have hredux : uploadStroke st i pts =
          (writeRow pts st (rowStart i.toNat), none) := by
        unfold uploadStroke
        rw [if_neg h1, if_neg h2]
      rw [hredux]
      push_neg at h1
      refine ⟨?_, ?_, fun hc => absurd rfl hc, fun _ => ⟨?_, ?_⟩⟩
      · constructor
        · intro hx
          exact absurd hx (by simp)
        · intro hx
          rcases hx with hx | hx
          · omega
          · omega
      · constructor
        · intro hx
          exact absurd hx (by simp)
        · rintro ⟨_, hc⟩
          exact absurd hlen hc
      · exact getStrokeData_writeRow_eq pts st i.toNat hlen
      · exact fun j hj => getStrokeData_writeRow_ne pts st i.toNat j hlen hj

/-- C7: uploading a full row and reading it back with `getStrokeData`
returns the uploaded points' coordinates (exactly, in this exact-arithmetic
model of the CPU-side buffer). -/
theorem uploadStroke_getStrokeData_roundtrip (st : TexState) (i : ℤ)
    (pts : List StrokePoint) (h0 : 0 ≤ i) (hC : i < (MAX_STROKES : ℤ))
    (hlen : pts.length = POINTS_PER_STROKE) :
    getStrokeData (uploadStroke st i pts).1 i.toNat =
      pts.map fun p => (p.x, p.y) := by
  have h1 : ¬ (i < 0 ∨ (MAX_STROKES : ℤ) ≤ i) := by
    rintro (h | h)
    · omega
    · omega
  unfold uploadStroke
  rw [if_neg h1, if_neg (by simp [hlen])]
  exact getStrokeData_writeRow_eq pts st i.toNat hlen

/-- C7 (witness): the round trip at row 2 of the zeroed bank with a
concrete 1024-point array. -/
theorem uploadStroke_getStrokeData_roundtrip_witness :
    getStrokeData (uploadStroke stZero 2 ptsW).1 (2 : ℤ).toNat =
      ptsW.map fun p => (p.x, p.y) :=
  uploadStroke_getStrokeData_roundtrip stZero 2 ptsW (by norm_num)
    (by norm_num [MAX_STROKES]) (by simp [ptsW])

/-- The loop of `uploadStrokes`: the buffer ends as the fold of the valid
entries' row writes, each invalid entry appends one warning, and the
update flag records whether any entry was applied. -/
theorem uploadStrokesLoop_spec (batch : List StrokeEntry) (data : TexState)
    (ws : List UploadWarning) (upd : Bool) :
    (uploadStrokesLoop batch data ws upd).1 =
        (batch.filter entryValid).foldl
          (fun d e => writeRow e.points d (rowStart e.index.toNat)) data ∧
      (uploadStrokesLoop batch data ws upd).2.1.length =
        ws.length + (batch.filter fun e => ! entryValid e).length ∧
      (uploadStrokesLoop batch data ws upd).2.2 = (upd || batch.any entryValid) := by
  induction batch generalizing data ws upd with
  | nil => simp [uploadStrokesLoop]
  | cons e rest ih =>
      by_cases hb1 : e.index < 0 ∨ (MAX_STROKES : ℤ) ≤ e.index
      · have hv : entryValid e = false := by
          unfold entryValid
          simp only [decide_eq_false_iff_not]
          rintro ⟨ha, hb, _⟩
          rcases hb1 with h | h
          · omega
          · omega
        simp only [uploadStrokesLoop]
        rw [if_pos hb1]
        obtain ⟨i1, i2, i3⟩ :=
          ih data (ws ++ [UploadWarning.indexOutOfRange e.index]) upd
        refine ⟨?_, ?_, ?_⟩
        · rw [i1]
          simp [List.filter_cons, hv]
        · rw [i2]
          simp only [List.length_append, List.filter_cons, hv]
          simp
          omega
        · rw [i3]
          simp [List.any_cons, hv]
      · by_cases hb2 : e.points.length ≠ POINTS_PER_STROKE
        · have hv : entryValid e = false := by
            unfold entryValid
            simp only [decide_eq_false_iff_not]
            rintro ⟨_, _, hc⟩
            exact hb2 hc
          simp only [uploadStrokesLoop]
          rw [if_neg hb1, if_pos hb2]
          obtain ⟨i1, i2, i3⟩ :=
            ih data (ws ++ [UploadWarning.pointCountMismatch e.index e.points.length]) upd
          refine ⟨?_, ?_, ?_⟩
          · rw [i1]
            simp [List.filter_cons, hv]
          · rw [i2]
            simp only [List.length_append, List.filter_cons, hv]
            simp
            omega
          · rw [i3]
            simp [List.any_cons, hv]
        · have hv : entryValid e = true := by
            unfold entryValid
            simp only [decide_eq_true_eq]
            push_neg at hb1
            exact ⟨hb1.1, hb1.2, not_not.mp hb2⟩
          simp only [uploadStrokesLoop]
          rw [if_neg hb1, if_neg hb2]
          obtain ⟨i1, i2, i3⟩ :=
            ih (writeRow e.points data (rowStart e.index.toNat)) ws true
          refine ⟨?_, ?_, ?_⟩
          · rw [i1]
            simp [List.filter_cons, hv]
          · rw [i2]
            simp [List.filter_cons, hv]
          · rw [i3]
            simp [List.any_cons, hv]

/-- C8: `uploadStrokes` applies exactly the valid entries (in-range index,
exactly `POINTS_PER_STROKE` points) as row replacements, records one
warning per skipped bad entry, and issues a single bulk GPU transfer (one
when anything was applied, none otherwise). -/
theorem uploadStrokes_spec (st : TexState) (batch : List StrokeEntry) :
    (uploadStrokes st batch).1 =
        (batch.filter entryValid).foldl
          (fun d e => writeRow e.points d (rowStart e.index.toNat)) st ∧
      (uploadStrokes st batch).2.1.length =
        (batch.filter fun e => ! entryValid e).length ∧
      (uploadStrokes st batch).2.2 = (if batch.any entryValid then 1 else 0) := by
  obtain ⟨i1, i2, i3⟩ := uploadStrokesLoop_spec batch st [] false
  simp only [uploadStrokes]
  refine ⟨i1, ?_, ?_⟩
  · simpa using i2
  · rw [i3]
    simp

/-- The `t` check the validator performs accepts exactly `NaN` and the
finite values of `[0, 1]`. -/
theorem tAccepted_iff (p : StrokePoint) :
    tAccepted p = true ↔ (p.t = JSNum.nan ∨ tInUnit p.t = true) := by
  obtain ⟨x, y, t⟩ := p
  cases t with
  | num q =>
      simp [tAccepted, jltB, tInUnit, not_lt]
  | nan => simp [tAccepted, jltB, tInUnit]
  | posInf => simp [tAccepted, jltB, tInUnit]
  | negInf => simp [tAccepted, jltB, tInUnit]

/-- The validator's per-point pass produces no error exactly when every
point has finite coordinates and an accepted `t`. -/
theorem pointChecks_eq_nil (i : ℕ) (pts : List StrokePoint) :
    pointChecks i pts = [] ↔
      ∀ p ∈ pts, coordsFinite p = true ∧ tAccepted p = true := by
  induction pts generalizing i with
  | nil => simp [pointChecks]
  | cons p rest ih =>
      cases hc : coordsFinite p with
      | false => simp [pointChecks, hc]
      | true =>
          cases ht : tAccepted p with
          | false => simp [pointChecks, hc, ht]
          | true => simp [pointChecks, hc, ht, ih]

/-- The validator's progression pass produces no error exactly when no
consecutive pair decreases under the IEEE `<`. -/
theorem monoChecks_eq_nil (i : ℕ) (pts : List StrokePoint) :
    monoChecks i pts = [] ↔
      List.Chain' (fun a b => jltB b.t a.t = false) pts := by
  induction pts generalizing i with
  | nil => simp [monoChecks]
  | cons p rest ih =>
      cases rest with
      | nil => simp [monoChecks]
      | cons q rest2 =>
          cases hlt : jltB q.t p.t with
          | true => simp [monoChecks, hlt, List.chain'_cons]
          | false => simp [monoChecks, hlt, List.chain'_cons, ih]


/-- C10 (counterexample): `validateStrokeData` reports `valid = true` on a
1024-point array whose every `t` parameter is `NaN` — a `t` that does not
lie in `[0, 1]` — because the code's `t < 0 || t > 1` and
`t[i] < t[i-1]` comparisons are all false on `NaN`. -/
theorem validateStrokeData_nan_cex :
    (validateStrokeData nanPts).1 = true ∧
      nanPts.all (fun p => tInUnit p.t) = false := by
  constructor
  · unfold validateStrokeData
    rw [if_neg (by simp [nanPts])]
    rw [List.nil_append, List.isEmpty_eq_true, List.append_eq_nil]
    refine ⟨(pointChecks_eq_nil 0 nanPts).mpr ?_, (monoChecks_eq_nil 0 nanPts).mpr ?_⟩
    · intro p hp
      have hp2 : p = ⟨JSNum.num 0, JSNum.num 0, JSNum.nan⟩ :=
        List.eq_of_mem_replicate hp
      subst hp2
      exact ⟨rfl, rfl⟩
    · exact List.chain'_replicate_of_rel _ rfl
  · have hmem : (⟨JSNum.num 0, JSNum.num 0, JSNum.nan⟩ : StrokePoint) ∈ nanPts := by
      unfold nanPts
      rw [List.mem_replicate]
      exact ⟨by norm_num [POINTS_PER_STROKE], rfl⟩
    rw [List.all_eq_false]
    exact ⟨_, hmem, by simp [tInUnit]⟩

/-- C10 (amended): `validateStrokeData` returns `valid = true` exactly when
the array has `POINTS_PER_STROKE` points, every coordinate is finite,
every `t` is `NaN` or a finite value of `[0, 1]` (a `NaN` `t` is accepted
because the code's comparisons are IEEE), and no consecutive `t` pair
decreases under the IEEE `<` (so equal consecutive `t` values are
accepted — strict increase is not required — and pairs involving a `NaN`
are accepted). -/
theorem validateStrokeData_spec (points : List StrokePoint) :
    (validateStrokeData points).1 = true ↔
      (points.length = POINTS_PER_STROKE ∧
        (∀ p ∈ points, coordsFinite p = true) ∧
        (∀ p ∈ points, p.t = JSNum.nan ∨ tInUnit p.t = true) ∧
        List.Chain' (fun a b => jltB b.t a.t = false) points) := by
  by_cases hn : points.length = POINTS_PER_STROKE
  · unfold validateStrokeData
    rw [if_neg (by simp [hn])]
    rw [List.nil_append, List.isEmpty_eq_true, List.append_eq_nil]
    rw [pointChecks_eq_nil, monoChecks_eq_nil]
    constructor
    · rintro ⟨hpt, hch⟩
      exact ⟨hn, fun p hp => (hpt p hp).1,
        fun p hp => (tAccepted_iff p).mp (hpt p hp).2, hch⟩
    · rintro ⟨_, hcf, hta, hch⟩
      exact ⟨fun p hp => ⟨hcf p hp, (tAccepted_iff p).mpr (hta p hp)⟩, hch⟩
  · unfold validateStrokeData
    rw [if_pos (by simp [hn])]
    simp [hn]

/-- C3: for a kernel unit `(slot, pointIndex)` with `slot` below the slot
capacity and `pointIndex` below `POINTS_PER_STROKE`: when the slot's
record is inactive (`active = 0`) or the computed reveal value is at or
below the epsilon `0.001`, the unit emits a culled instance — its only
write is the translation row, placed outside the visible region — and
does nothing else; otherwise (an active record, reveal above epsilon) it
emits exactly one instance transform whose uniform scale is the base
marker size `0.003` multiplied by the reveal value. -/
theorem strokeKernelUnit_spec (params : GlobalParams)
    (configs : ℕ → LaunchConfig) (tex : StrokeTex) (slot pointIndex : ℕ)
    (hs : slot < params.maxAnimations) (hp : pointIndex < POINTS_PER_STROKE) :
    (((configs slot).active = 0 ∨
          revealOf (configs slot) pointIndex ≤ 1 / 1000) →
        strokeKernelUnit params configs tex
            (slot * POINTS_PER_STROKE + pointIndex) =
            KernelWrite.cull ((slot * POINTS_PER_STROKE + pointIndex) * 4) ∧
          writtenCells
              (strokeKernelUnit params configs tex
                (slot * POINTS_PER_STROKE + pointIndex)) =
            [((slot * POINTS_PER_STROKE + pointIndex) * 4 + 3, cullVec)] ∧
          ¬ inVisibleRegion (cullVec.x, cullVec.y)) ∧
      ((configs slot).active = 1 →
        ¬ revealOf (configs slot) pointIndex ≤ 1 / 1000 →
        ∃ pos, strokeKernelUnit params configs tex
            (slot * POINTS_PER_STROKE + pointIndex) =
          KernelWrite.emit ((slot * POINTS_PER_STROKE + pointIndex) * 4)
            (3 / 1000 * revealOf (configs slot) pointIndex) pos) := by
  have hdiv : (slot * POINTS_PER_STROKE + pointIndex) / POINTS_PER_STROKE = slot := by
    unfold POINTS_PER_STROKE at *
    omega
  have hmod : (slot * POINTS_PER_STROKE + pointIndex) % POINTS_PER_STROKE = pointIndex := by
    unfold POINTS_PER_STROKE at *
    omega
  constructor
  · intro h
    have hcull : strokeKernelUnit params configs tex
        (slot * POINTS_PER_STROKE + pointIndex) =
        KernelWrite.cull ((slot * POINTS_PER_STROKE + pointIndex) * 4) := by
      simp only [strokeKernelUnit]
      rw [hdiv, hmod]
      rw [if_neg (by omega)]
      rcases h with h | h
      · rw [if_pos (by rw [h]; norm_num)]
      · by_cases ha : (configs slot).active < 1 / 2
        · rw [if_pos ha]
        · rw [if_neg ha, if_pos h]
    refine ⟨hcull, ?_, ?_⟩
    · rw [hcull]
      rfl
    · simp only [cullVec]
      rintro ⟨h1, -⟩
      norm_num [CANVAS_WIDTH, CANVAS_HEIGHT] at h1
  · intro h1 h2
    simp only [strokeKernelUnit]
    rw [hdiv, hmod]
    rw [if_neg (by omega), if_neg (by rw [h1]; norm_num), if_neg h2]
    exact ⟨_, rfl⟩

/-- C3 (witness): the kernel-unit case split at the concrete unit
`(slot, pointIndex) = (0, 0)` of the concrete dispatch state. -/
theorem strokeKernelUnit_spec_witness :
    (((configsW 0).active = 0 ∨ revealOf (configsW 0) 0 ≤ 1 / 1000) →
        strokeKernelUnit paramsW configsW texW (0 * POINTS_PER_STROKE + 0) =
            KernelWrite.cull ((0 * POINTS_PER_STROKE + 0) * 4) ∧
          writtenCells
              (strokeKernelUnit paramsW configsW texW
                (0 * POINTS_PER_STROKE + 0)) =
            [((0 * POINTS_PER_STROKE + 0) * 4 + 3, cullVec)] ∧
          ¬ inVisibleRegion (cullVec.x, cullVec.y)) ∧
      ((configsW 0).active = 1 → ¬ revealOf (configsW 0) 0 ≤ 1 / 1000 →
        ∃ pos, strokeKernelUnit paramsW configsW texW
            (0 * POINTS_PER_STROKE + 0) =
          KernelWrite.emit ((0 * POINTS_PER_STROKE + 0) * 4)
            (3 / 1000 * revealOf (configsW 0) 0) pos) :=
  strokeKernelUnit_spec paramsW configsW texW 0 0 (by decide)
    (by decide)

/-- `getD` on a map over `range`. -/
theorem getD_range_map {α : Type} (f : ℕ → α) (n k : ℕ) (d : α) (h : k < n) :
    ((List.range n).map f).getD k d = f k := by
  rw [List.getD_eq_getElem _ _ (by simpa using h)]
  simp

/-- C6: on an input whose cleaned polyline has at least 2 (distinct
consecutive) points and is not degenerate (total length above the
epsilon), `normalizeStroke` succeeds with exactly `POINTS_PER_STROKE`
points whose `t` parameter increases strictly from 0 to 1.  (Coordinates
are exact rationals in this model, so finiteness is inherent.) -/
theorem normalizeStroke_spec (len : RawPoint → RawPoint → ℚ)
    (stroke : List RawPoint) (h2 : 2 ≤ (collapseDup stroke).length)
    (hL : EPSILON_DEGENERATE < totalLen len (collapseDup stroke)) :
    ∃ out, normalizeStroke len stroke = Except.ok out ∧
      out.length = POINTS_PER_STROKE ∧
      (∀ i j : ℕ, i < j → j < out.length →
        (out.getD i ⟨0, 0, 0⟩).t < (out.getD j ⟨0, 0, 0⟩).t) ∧
      (out.getD 0 ⟨0, 0, 0⟩).t = 0 ∧
      (out.getD (POINTS_PER_STROKE - 1) ⟨0, 0, 0⟩).t = 1 := by
  have hne1 : ¬ (collapseDup stroke).length < 2 := by omega
  have hne2 : ¬ totalLen len (collapseDup stroke) ≤ EPSILON_DEGENERATE :=
    not_le.mpr hL
  refine ⟨(List.range POINTS_PER_STROKE).map (normSample len (collapseDup stroke)),
    ?_, ?_, ?_, ?_, ?_⟩
  · unfold normalizeStroke
    rw [if_neg hne1, if_neg hne2]
  · simp
  · intro i j hij hj
    have hj2 : j < POINTS_PER_STROKE := by simpa using hj
    have hi2 : i < POINTS_PER_STROKE := lt_trans hij hj2
    rw [getD_range_map _ _ _ _ hi2, getD_range_map _ _ _ _ hj2]
    show (i : ℚ) / ((POINTS_PER_STROKE : ℚ) - 1) <
      (j : ℚ) / ((POINTS_PER_STROKE : ℚ) - 1)
    have hpos : (0 : ℚ) < (POINTS_PER_STROKE : ℚ) - 1 := by
      norm_num [POINTS_PER_STROKE]
    exact (div_lt_div_iff_of_pos_right hpos).mpr (by exact_mod_cast hij)
  · rw [getD_range_map _ _ _ _ (by norm_num [POINTS_PER_STROKE])]
    show ((0 : ℕ) : ℚ) / ((POINTS_PER_STROKE : ℚ) - 1) = 0
    norm_num
  · rw [getD_range_map _ _ _ _ (by norm_num [POINTS_PER_STROKE])]
    show ((POINTS_PER_STROKE - 1 : ℕ) : ℚ) / ((POINTS_PER_STROKE : ℚ) - 1) = 1
    norm_num [POINTS_PER_STROKE]


/-- C6 (witness): normalization of the concrete two-point stroke, with the
hypotheses discharged by computation. -/
theorem normalizeStroke_spec_witness :
    ∃ out, normalizeStroke lenSq strokeW = Except.ok out ∧
      out.length = POINTS_PER_STROKE ∧
      (∀ i j : ℕ, i < j → j < out.length →
        (out.getD i ⟨0, 0, 0⟩).t < (out.getD j ⟨0, 0, 0⟩).t) ∧
      (out.getD 0 ⟨0, 0, 0⟩).t = 0 ∧
      (out.getD (POINTS_PER_STROKE - 1) ⟨0, 0, 0⟩).t = 1 :=
  normalizeStroke_spec lenSq strokeW
    (by norm_num [strokeW, collapseDup, RawPoint.mk.injEq])
    (by norm_num [EPSILON_DEGENERATE, totalLen, segLens, collapseDup, strokeW,
      lenSq, RawPoint.mk.injEq])

end StrokeAnim
